import Mathlib

/-!
Verification of the core of a local to-do reminder application
(source: src/App.tsx).  The development embeds the task data model, the
persistence contract, the pure mutators, the reminder-scheduler tick, the
notification gateway, and the derived view computation as executable Lean
definitions, and proves the specified properties about them.

Modelling conventions.  Timestamps obtained from the platform date parser
(new Date(s).getTime()) are represented by an abstract function
toTime : String -> Int passed as a parameter; calendar decomposition of a
date (getFullYear / getMonth / getDate) is represented by functions into
CalDate.  Platform effects (the notification capability, the permission
state, whether raising an alert throws) are represented by explicit
runtime records or boolean oracles.  JavaScript truthiness tests on an
optional string field (such as !t.due) are modelled by strFalsy, which is
true exactly for an absent value or the empty string.
-/

namespace TodoApp

/-- The Task record from App.tsx.  The fields due and createdAt hold ISO
date strings; an absent optional field is none.  The optional field
notified is collapsed to Bool: the code only ever tests it for
truthiness, so an undefined value behaves exactly as false. -/
structure Task where
  id : String
  title : String
  notes : Option String
  due : Option String
  completed : Bool
  notified : Bool
  createdAt : String
  deriving DecidableEq

/-- The string trim operation (String.prototype.trim): drop leading and
trailing whitespace.  Defined over the character list so that it is
fully computable by the kernel. -/
def trim (s : String) : String :=
  ⟨((s.data.dropWhile Char.isWhitespace).reverse.dropWhile Char.isWhitespace).reverse⟩

/-- JavaScript truthiness of a value of type string or undefined: an
absent value and the empty string are falsy, every other string is
truthy.  Used to model the tests !t.due, t.due ? _ : _ and similar. -/
def strFalsy : Option String → Bool
  | none => true
  | some s => s = ""

/-- A Partial Task update record, as accepted by saveEdit.  An outer none
means the key is absent from the record; for the optional fields notes
and due, some none models a key that is present with value undefined
(which overwrites the field when spread). -/
structure TaskUpdates where
  id : Option String
  title : Option String
  notes : Option (Option String)
  due : Option (Option String)
  completed : Option Bool
  notified : Option Bool
  createdAt : Option String
  deriving DecidableEq

/-- The object spread { ...t, ...updates }: every key present in the
update record overwrites the corresponding field of the task. -/
def applyUpdates (t : Task) (u : TaskUpdates) : Task :=
  { id := u.id.getD t.id
    title := u.title.getD t.title
    notes := u.notes.getD t.notes
    due := u.due.getD t.due
    completed := u.completed.getD t.completed
    notified := u.notified.getD t.notified
    createdAt := u.createdAt.getD t.createdAt }

/-- saveEdit from App.tsx: map over the snapshot, merging the update
record into the task whose id matches. -/
def saveEdit (prev : List Task) (id : String) (updates : TaskUpdates) : List Task :=
  prev.map fun t => if t.id = id then applyUpdates t updates else t

/-- The update record built by the inline editor (EditInline.onSave in
App.tsx): title falls back to the previous title when trimmed empty,
notes is trimmed or cleared, due is always present (possibly undefined),
and notified is always set to false. -/
def onSaveUpdates (t : Task) (title notes : String) (dueISO : Option String) : TaskUpdates :=
  { id := none
    title := some (if trim title = "" then t.title else trim title)
    notes := some (if trim notes = "" then none else some (trim notes))
    due := some dueISO
    completed := none
    notified := some false
    createdAt := none }

/-- toggleComplete from App.tsx. -/
def toggleComplete (prev : List Task) (id : String) : List Task :=
  prev.map fun t => if t.id = id then { t with completed := !t.completed } else t

/-- removeTask from App.tsx. -/
def removeTask (prev : List Task) (id : String) : List Task :=
  prev.filter fun t => !(t.id = id)

/-- The platform permission value: the NotificationPermission string
union default | granted | denied. -/
inductive NotificationPermission where
  | default
  | granted
  | denied
  deriving DecidableEq

/-- The ambient notification platform as read by the gateway:
whether the Notification capability exists in the runtime, the current
permission, and the outcome of Notification.requestPermission (none
models the request throwing). -/
structure NotifRuntime where
  hasNotification : Bool
  permission : NotificationPermission
  requestResult : Option NotificationPermission
  deriving DecidableEq

/-- ensureNotificationPermission from App.tsx: absent capability yields
denied; granted short-circuits; a state other than denied triggers a
one-shot request whose thrown failure also yields denied; an existing
denial is returned as is. -/
def ensureNotificationPermission (rt : NotifRuntime) : NotificationPermission :=
  if !rt.hasNotification then .denied
  else if rt.permission = .granted then .granted
  else if rt.permission ≠ .denied then
    match rt.requestResult with
    | some p => p
    | none => .denied
  else rt.permission

/-- notifyTask from App.tsx: false when the capability is absent or the
permission is not granted; otherwise the platform attempts to raise the
alert, and raiseOk tells whether the constructor call succeeds (false
models the call throwing, which the code catches). -/
def notifyTask (rt : NotifRuntime) (raiseOk : Task → Bool) (t : Task) : Bool :=
  if !rt.hasNotification then false
  else if rt.permission ≠ .granted then false
  else raiseOk t

/-- The add form input after FormData extraction and the string coercion
(fd.get(k) as string) || two quotes: three raw strings. -/
structure Draft where
  title : String
  notes : String
  due : String
  deriving DecidableEq

/-- addTask from App.tsx (the state-transition part): trim the three
fields, reject an empty trimmed title, otherwise prepend a freshly built
task.  The fresh id and the creation timestamp are passed in (uid() and
new Date().toISOString() read ambient state); toIso models the platform
conversion new Date(s).toISOString(). -/
def addTask (newId nowIso : String) (toIso : String → String)
    (prev : List Task) (d : Draft) : List Task :=
  let title := trim d.title
  let notes := trim d.notes
  let dueStr := trim d.due
  if title = "" then prev
  else
    { id := newId
      title := title
      notes := if notes = "" then none else some notes
      due := if dueStr = "" then none else some (toIso dueStr)
      completed := false
      notified := false
      createdAt := nowIso } :: prev

/-- One iteration of the body of prev.map inside the scheduler interval
effect of App.tsx, applied to a single task: skip the task when its due
is falsy, it is completed, or it is already notified; otherwise compare
the parsed due timestamp with now and, when due, attempt dispatch.  The
boolean component is the contribution to the changed flag: it is true
exactly when the dispatch succeeded and the task was marked notified. -/
def tickTask (toTime : String → Int) (dispatch : Task → Bool) (now : Int)
    (t : Task) : Task × Bool :=
  if strFalsy t.due || t.completed || t.notified then (t, false)
  else
    let dueTs := toTime (t.due.getD "")
    if dueTs ≤ now then
      if dispatch t then ({ t with notified := true }, true) else (t, false)
    else (t, false)

/-- One scheduler tick from App.tsx: map tickTask over the snapshot,
collect the changed flag, and return the next snapshot when anything
changed, the previous snapshot otherwise.  The boolean component records
whether a store write happens (the updater returned a new array). -/
def tick (toTime : String → Int) (dispatch : Task → Bool) (now : Int)
    (prev : List Task) : List Task × Bool :=
  let results := prev.map (tickTask toTime dispatch now)
  let changed := results.any fun r => r.2
  (if changed then results.map (fun r => r.1) else prev, changed)

/-- A sequence of scheduler ticks, each with its own dispatch oracle and
captured now value, folded over a starting snapshot. -/
def runTicks (toTime : String → Int) (steps : List ((Task → Bool) × Int))
    (s : List Task) : List Task :=
  steps.foldl (fun acc st => (tick toTime st.1 st.2 acc).1) s

/-- Eligibility of a task at time now, exactly the condition under which
the tick attempts a dispatch for it: due present and truthy, not
completed, not yet notified, and the parsed due timestamp at most now. -/
def eligible (toTime : String → Int) (now : Int) (t : Task) : Bool :=
  !(strFalsy t.due || t.completed || t.notified)
    && decide (toTime (t.due.getD "") ≤ now)

/-- A structured JSON value: the image of JSON.parse, and the shape that
JSON.stringify serializes.  The stringification itself is a platform
bijection between these trees and their text, so the store is modelled
at the tree level. -/
inductive Json where
  | null
  | bool (b : Bool)
  | num (n : Int)
  | str (s : String)
  | arr (xs : List Json)
  | obj (fields : List (String × Json))

/-- First field of an object with the given key, as JavaScript property
access on a parsed object. -/
def getField : List (String × Json) → String → Option Json
  | [], _ => none
  | (k, v) :: rest, key => if k = key then some v else getField rest key

/-- Read a JSON value as a string. -/
def asStr : Json → Option String
  | .str s => some s
  | _ => none

/-- Read a JSON value as a boolean. -/
def asBool : Json → Option Bool
  | .bool b => some b
  | _ => none

/-- Serialization of one task, following the field layout of the Task
type in App.tsx: JSON.stringify omits the optional fields notes and due
when they are undefined, and notified (a required Bool in this model)
is always written. -/
def encodeTask (t : Task) : Json :=
  .obj ([("id", .str t.id), ("title", .str t.title)]
    ++ (match t.notes with | some s => [("notes", Json.str s)] | none => [])
    ++ (match t.due with | some s => [("due", Json.str s)] | none => [])
    ++ [("completed", .bool t.completed), ("notified", .bool t.notified),
        ("createdAt", .str t.createdAt)])

/-- Serialization of the collection: a JSON array of task records, as
JSON.stringify(tasks). -/
def encodeTasks (tasks : List Task) : Json :=
  .arr (tasks.map encodeTask)

/-- Reading of a parsed JSON record back as a Task, following the Task
type declared in App.tsx: required string fields id, title, createdAt;
required boolean completed; optional notes and due; optional notified
defaulting to false.  This reader is not part of loadTasks — the source
performs no per-record validation — it is the task-level interpretation
of stored records, the left inverse of encodeTask used to state the
round-trip property at the Task level. -/
def decodeTask : Json → Option Task
  | .obj fs => do
    let id ← (getField fs "id").bind asStr
    let title ← (getField fs "title").bind asStr
    let notes := (getField fs "notes").bind asStr
    let due := (getField fs "due").bind asStr
    let completed ← (getField fs "completed").bind asBool
    let notified := ((getField fs "notified").bind asBool).getD false
    let createdAt ← (getField fs "createdAt").bind asStr
    pure { id := id, title := title, notes := notes, due := due,
           completed := completed, notified := notified, createdAt := createdAt }
  | _ => none

/-- Task-level reading of a list of stored records; like decodeTask it
is the statement-side inverse of the serialization, not code. -/
def decodeTaskList : List Json → Option (List Task)
  | [] => some []
  | j :: rest => do
    let t ← decodeTask j
    let ts ← decodeTaskList rest
    pure (t :: ts)

/-- The persisted slot as seen by loadTasks: the key can be absent,
hold text that JSON.parse rejects (the parse throws and the catch
returns the empty list), or hold text parsing to a JSON tree. -/
inductive StoreState where
  | absent
  | corrupt
  | content (j : Json)

/-- The object spread ({...t}) that loadTasks applies to each parsed
record in parsed.map(t => ({...t})).  It never throws on any value: an
object is copied as is, an array or a string spreads to an object with
index keys for its elements or characters, and any other primitive
spreads to the empty object. -/
def spreadCopy : Json → Json
  | .obj fs => .obj fs
  | .arr xs => .obj (xs.enum.map fun p => (toString p.1, p.2))
  | .str s => .obj (s.data.enum.map fun p => (toString p.1, Json.str (String.mk [p.2])))
  | _ => .obj []

/-- loadTasks from App.tsx: an absent key yields the empty list; a parse
failure is caught and yields the empty list; parsed non-array content
throws inside the try block (parsed.map is not a function) and also
degrades to the empty list; parsed array content is returned as the
spread copies of its records with no per-record validation, whatever
their shape. -/
def loadTasks : StoreState → List Json
  | .absent => []
  | .corrupt => []
  | .content (.arr xs) => xs.map spreadCopy
  | .content _ => []

/-- saveTasks from App.tsx: overwrite the slot with the serialized
collection. -/
def saveTasks (tasks : List Task) : StoreState :=
  .content (encodeTasks tasks)

/-- A local calendar date, the projection of a Date through getFullYear,
getMonth and getDate used by isToday. -/
structure CalDate where
  year : Int
  month : Int
  day : Int
  deriving DecidableEq

/-- isToday from App.tsx: an absent date is never today; otherwise the
calendar components of the date are compared with those of new Date().
The clock read inside the function is made explicit: calOfTime now is
the calendar date of the current instant. -/
def isToday (calOfTime : Int → CalDate) (now : Int) (d : Option CalDate) : Bool :=
  match d with
  | none => false
  | some c => c = calOfTime now

/-- The Today / All tab selection. -/
inductive Tab where
  | today
  | all
  deriving DecidableEq

/-- The pending / completed / all filter selection. -/
inductive Filter where
  | pending
  | completed
  | all
  deriving DecidableEq

/-- The case-insensitive title search of App.tsx:
t.title.toLowerCase().includes(query.toLowerCase()). -/
def titleMatches (t : Task) (query : String) : Bool :=
  t.title.toLower.containsSubstr query.toLower.toSubstring

/-- The sort comparator of App.tsx turned into a boolean order: the
comparator returns 0 when both due fields are falsy, 1 when only the
first is falsy, -1 when only the second is falsy, and the timestamp
difference otherwise; le a b holds exactly when the comparator value is
at most 0. -/
def dueLeb (toTime : String → Int) (a b : Task) : Bool :=
  if strFalsy a.due && strFalsy b.due then true
  else if strFalsy a.due then false
  else if strFalsy b.due then true
  else decide (toTime (a.due.getD "") ≤ toTime (b.due.getD ""))

/-- The sort key of a task under the comparator: absent (or empty) due
gives none, otherwise the parsed timestamp.  Two tasks compare as equal
under the comparator exactly when their keys are equal. -/
def keyOf (toTime : String → Int) (t : Task) : Option Int :=
  if strFalsy t.due then none else some (toTime (t.due.getD ""))

/-- The intended order on sort keys: tasks with a timestamp ascending,
and every task without a timestamp after every task with one. -/
def keyLe : Option Int → Option Int → Prop
  | _, none => True
  | none, some _ => False
  | some x, some y => x ≤ y

/-- The visible list before sorting: the tab partition (today keeps the
tasks whose truthy due parses to the current calendar date), then the
completion filter, then the non-empty trimmed query filter.  This is the
chain of filters computed by the visible memo in App.tsx. -/
def visiblePre (calOfStr : String → CalDate) (calOfTime : Int → CalDate)
    (now : Int) (tasks : List Task) (tab : Tab) (fl : Filter)
    (query : String) : List Task :=
  let todayList := tasks.filter fun t =>
    isToday calOfTime now
      (if strFalsy t.due then none else some (calOfStr (t.due.getD "")))
  let l1 := match tab with
    | Tab.today => todayList
    | Tab.all => tasks
  let l2 := match fl with
    | Filter.pending => l1.filter fun t => !t.completed
    | Filter.completed => l1.filter fun t => t.completed
    | Filter.all => l1
  if trim query = "" then l2 else l2.filter fun t => titleMatches t query

/-- The visible memo of App.tsx: the filtered list, sorted by the due
comparator with the platform stable sort. -/
def visible (toTime : String → Int) (calOfStr : String → CalDate)
    (calOfTime : Int → CalDate) (now : Int) (tasks : List Task) (tab : Tab)
    (fl : Filter) (query : String) : List Task :=
  (visiblePre calOfStr calOfTime now tasks tab fl query).mergeSort (dueLeb toTime)

/-! ### Helper lemmas about the scheduler tick -/

theorem tickTask_eq (toTime : String → Int) (dispatch : Task → Bool) (now : Int)
    (t : Task) :
    tickTask toTime dispatch now t
      = if (strFalsy t.due || t.completed || t.notified) = false
            ∧ toTime (t.due.getD "") ≤ now ∧ dispatch t = true
        then ({ t with notified := true }, true)
        else (t, false) := by
  simp only [tickTask]
  by_cases h1 : (strFalsy t.due || t.completed || t.notified) = true
  · rw [if_pos h1, if_neg]
    simp [h1]
  · rw [if_neg h1]
    rw [Bool.not_eq_true] at h1
    by_cases h2 : toTime (t.due.getD "") ≤ now
    · rw [if_pos h2]
      by_cases h3 : dispatch t = true
      · rw [if_pos h3, if_pos ⟨h1, h2, h3⟩]
      · rw [if_neg h3, if_neg]
        simp [h3]
    · rw [if_neg h2, if_neg]
      simp [h2]

theorem tickTask_fst_of_snd_false (toTime : String → Int) (dispatch : Task → Bool)
    (now : Int) (t : Task) (h : (tickTask toTime dispatch now t).2 = false) :
    (tickTask toTime dispatch now t).1 = t := by
  rw [tickTask_eq] at h ⊢
  split at h
  · simp at h
  · rename_i hc
    rw [if_neg hc]

theorem tick_fst (toTime : String → Int) (dispatch : Task → Bool) (now : Int)
    (prev : List Task) :
    (tick toTime dispatch now prev).1
      = prev.map fun t => (tickTask toTime dispatch now t).1 := by
  simp only [tick]
  split
  · exact List.map_map _ _ prev
  · rename_i hany
    rw [Bool.not_eq_true, List.any_eq_false] at hany
    refine Eq.symm ?_
    refine (List.map_congr_left fun t ht => ?_).trans (List.map_id prev)
    refine tickTask_fst_of_snd_false toTime dispatch now t ?_
    have := hany _ (List.mem_map_of_mem (tickTask toTime dispatch now) ht)
    simpa using this

theorem tick_getElem (toTime : String → Int) (dispatch : Task → Bool) (now : Int)
    (prev : List Task) (i : Nat) :
    (tick toTime dispatch now prev).1[i]?
      = prev[i]?.map fun t => (tickTask toTime dispatch now t).1 := by
  rw [tick_fst, List.getElem?_map]

theorem tickTask_of_dispatch_false (toTime : String → Int) (dispatch : Task → Bool)
    (now : Int) (t : Task) (h : dispatch t = false) :
    tickTask toTime dispatch now t = (t, false) := by
  simp [tickTask_eq, h]

theorem tickTask_of_not_eligible (toTime : String → Int) (dispatch : Task → Bool)
    (now : Int) (t : Task) (h : eligible toTime now t = false) :
    tickTask toTime dispatch now t = (t, false) := by
  rw [tickTask_eq, if_neg]
  rintro ⟨h1, h2, -⟩
  rw [eligible, h1] at h
  simp [h2] at h

theorem tickTask_of_eligible_dispatch_true (toTime : String → Int)
    (dispatch : Task → Bool) (now : Int) (t : Task)
    (he : eligible toTime now t = true) (hd : dispatch t = true) :
    tickTask toTime dispatch now t = ({ t with notified := true }, true) := by
  rw [eligible, Bool.and_eq_true, Bool.not_eq_true', decide_eq_true_eq] at he
  rw [tickTask_eq, if_pos ⟨he.1, he.2, hd⟩]

theorem runTicks_cons (toTime : String → Int) (st : (Task → Bool) × Int)
    (steps : List ((Task → Bool) × Int)) (s : List Task) :
    runTicks toTime (st :: steps) s
      = runTicks toTime steps (tick toTime st.1 st.2 s).1 := rfl

theorem runTicks_getElem_fixed (toTime : String → Int)
    (steps : List ((Task → Bool) × Int)) (s : List Task) (i : Nat) (t : Task)
    (hfix : ∀ st ∈ steps, tickTask toTime st.1 st.2 t = (t, false))
    (hget : s[i]? = some t) :
    (runTicks toTime steps s)[i]? = some t := by
  induction steps generalizing s with
  | nil => exact hget
  | cons st steps ih =>
    rw [runTicks_cons]
    refine ih _ (fun st1 h1 => hfix st1 (List.mem_cons_of_mem st h1)) ?_
    rw [tick_getElem, hget]
    simp [hfix st (List.mem_cons_self st steps)]

theorem tickTask_skip (toTime : String → Int) (dispatch : Task → Bool) (now : Int)
    (t : Task)
    (h : t.completed = true ∨ t.due = none ∨ ∀ d, t.due = some d → now < toTime d) :
    tickTask toTime dispatch now t = (t, false) := by
  rw [tickTask_eq, if_neg]
  rintro ⟨h1, h2, -⟩
  rcases h with hc | hd | hf
  · rw [hc] at h1
    simp at h1
  · rw [hd] at h1
    simp [strFalsy] at h1
  · cases hdu : t.due with
    | none =>
      rw [hdu] at h1
      simp [strFalsy] at h1
    | some d =>
      have hlt := hf d hdu
      rw [hdu, Option.getD_some] at h2
      omega

theorem tickTask_fst_cases (toTime : String → Int) (dispatch : Task → Bool)
    (now : Int) (t : Task) :
    (tickTask toTime dispatch now t).1 = t ∨
      (t.notified = false
        ∧ (tickTask toTime dispatch now t).1 = { t with notified := true }) := by
  rw [tickTask_eq]
  split
  · rename_i hC
    refine Or.inr ⟨?_, rfl⟩
    have h1 := hC.1
    simp only [Bool.or_eq_false_iff] at h1
    exact h1.2
  · exact Or.inl rfl

theorem tick_of_all_ineligible (toTime : String → Int) (dispatch : Task → Bool)
    (now : Int) (l : List Task)
    (h : ∀ t ∈ l, eligible toTime now t = false) :
    tick toTime dispatch now l = (l, false) := by
  have hmap : l.map (tickTask toTime dispatch now) = l.map (fun t => (t, false)) :=
    List.map_congr_left fun t ht => tickTask_of_not_eligible _ _ _ _ (h t ht)
  simp only [tick, hmap]
  simp [List.any_map]

theorem eligible_false_after_tick (toTime : String → Int) (dispatch : Task → Bool)
    (now : Int) (prev : List Task)
    (h : ∀ t ∈ prev, eligible toTime now t = true → dispatch t = true) :
    ∀ u ∈ (tick toTime dispatch now prev).1, eligible toTime now u = false := by
  intro u hu
  rw [tick_fst] at hu
  obtain ⟨t, ht, rfl⟩ := List.mem_map.mp hu
  by_cases he : eligible toTime now t = true
  · rw [tickTask_of_eligible_dispatch_true _ _ _ _ he (h t ht he)]
    simp [eligible]
  · have he2 : eligible toTime now t = false := Bool.eq_false_iff.mpr he
    rw [tickTask_of_not_eligible _ _ _ _ he2]
    exact he2

/-! ### Claims about the mutators and the gateway -/

def tC1 : Task :=
  ⟨"a", "pay bill", none, some "2025-01-01T00:00", false, false, "2024-12-01"⟩

def uC1 : TaskUpdates :=
  ⟨none, none, none, some (some "2025-02-01T00:00"), none, some true, none⟩

def uC1w : TaskUpdates :=
  ⟨none, none, none, some (some "2025-02-01T00:00"), none, some false, none⟩

/-- Claim C1 (counterexample): an update record that includes a due value
and carries notified = true leaves the edited task with notified = true,
so the edit operation does not force notified = false regardless of the
notified value carried in the update record: saveEdit merges the record
verbatim and never resets the flag itself. -/
theorem edit_forces_notified_cex :
    uC1.due.isSome = true ∧ tC1.notified = false
      ∧ (saveEdit [tC1] "a" uC1).map Task.notified = [true] :=
  ⟨rfl, rfl, rfl⟩

/-- Claim C1 (amended): when the update record includes a due value and
carries notified = false — as the only call site, the inline editor
onSave, always does — the edit operation produces a snapshot in which
the task matching the id has notified = false regardless of its prior
value. -/
theorem edit_due_resets_notified (prev : List Task) (a : String) (u : TaskUpdates)
    (i : Nat) (t : Task)
    (_hdue : u.due.isSome = true) (hnot : u.notified = some false)
    (hget : prev[i]? = some t) (hid : t.id = a) :
    (saveEdit prev a u)[i]?.map Task.notified = some false := by
  rw [saveEdit, List.getElem?_map, hget]
  simp [hid, applyUpdates, hnot]

/-- Witness for the amended claim C1 at a concrete snapshot and update
record: the previously unnotified task with a matching id ends with
notified = false after an edit that includes a due value. -/
theorem edit_due_resets_notified_witness :
    (saveEdit [tC1] "a" uC1w)[0]?.map Task.notified = some false :=
  edit_due_resets_notified [tC1] "a" uC1w 0 tC1 rfl rfl rfl rfl

/-- Claim C2 (counterexample): with the notification capability absent
from the runtime, ensureNotificationPermission returns denied — the very
same value returned for a runtime with the capability present and
permission denied — and its return type has no distinct unsupported
result at all. -/
theorem ensurePermission_no_unsupported_cex :
    ensureNotificationPermission ⟨false, .default, some .granted⟩
        = NotificationPermission.denied
      ∧ ensureNotificationPermission ⟨false, .default, some .granted⟩
        = ensureNotificationPermission ⟨true, .denied, none⟩ :=
  ⟨rfl, rfl⟩

/-- Claim C2 (amended): when the notification capability is absent from
the runtime, ensureNotificationPermission returns denied, for every
permission state and every request outcome; the implementation does not
distinguish an unsupported platform from a denied permission. -/
theorem ensurePermission_absent_denied (p : NotificationPermission)
    (r : Option NotificationPermission) :
    ensureNotificationPermission ⟨false, p, r⟩ = .denied := rfl

def dC4e : Draft := ⟨"   ", "some notes", "2025-01-01T09:00"⟩

def dC4g : Draft := ⟨" pay bill ", "  ", " 2025-01-01T09:00 "⟩

/-- Claim C4: a draft whose title trims to empty leaves the snapshot
unchanged; any other draft prepends exactly one new task carrying the
trimmed title, trimmed-or-absent notes, parsed-or-absent due,
completed = false and notified = false. -/
theorem addTask_correct (newId nowIso : String) (toIso : String → String)
    (prev : List Task) (d : Draft) :
    (trim d.title = "" → addTask newId nowIso toIso prev d = prev) ∧
    (trim d.title ≠ "" →
      addTask newId nowIso toIso prev d
        = { id := newId, title := trim d.title,
            notes := if trim d.notes = "" then none else some (trim d.notes),
            due := if trim d.due = "" then none else some (toIso (trim d.due)),
            completed := false, notified := false,
            createdAt := nowIso } :: prev) := by
  constructor <;> intro h <;> simp [addTask, h]

/-- Witness for claim C4: a whitespace-only title is rejected as a
no-op, and a normal draft prepends the fully-populated fresh task. -/
theorem addTask_correct_witness :
    addTask "id1" "t0" (fun s => s) [] dC4e = []
      ∧ addTask "id1" "t0" (fun s => s) [] dC4g
        = [{ id := "id1", title := "pay bill", notes := none,
             due := some "2025-01-01T09:00", completed := false,
             notified := false, createdAt := "t0" }] := by
  constructor
  · exact (addTask_correct "id1" "t0" (fun s => s) [] dC4e).1 (by decide)
  · rw [(addTask_correct "id1" "t0" (fun s => s) [] dC4g).2 (by decide)]
    decide

/-! ### Claims about the scheduler -/

/-- Claim C3: over any sequence of scheduler ticks, a task that is
completed, or has no due, or whose due parses strictly later than the
now of every tick, keeps its notified flag unchanged — in particular it
never acquires notified = true.  The element is in fact returned
entirely unchanged by every such tick. -/
theorem scheduler_never_notifies (toTime : String → Int)
    (steps : List ((Task → Bool) × Int)) (s : List Task) (i : Nat) (t : Task)
    (hget : s[i]? = some t)
    (hcond : t.completed = true ∨ t.due = none ∨
      ∀ st ∈ steps, ∀ d, t.due = some d → st.2 < toTime d) :
    (runTicks toTime steps s)[i]?.map Task.notified = some t.notified := by
  have hrun : (runTicks toTime steps s)[i]? = some t := by
    refine runTicks_getElem_fixed toTime steps s i t ?_ hget
    intro st hst
    refine tickTask_skip toTime st.1 st.2 t ?_
    rcases hcond with h | h | h
    · exact Or.inl h
    · exact Or.inr (Or.inl h)
    · exact Or.inr (Or.inr fun d hd => h st hst d hd)
  rw [hrun]
  rfl

def tC3 : Task := ⟨"w3", "done task", none, some "2025-01-01T00:00", true, false, "c"⟩

/-- Witness for claim C3: a completed task stays unnotified through a
tick whose dispatch oracle would report success. -/
theorem scheduler_never_notifies_witness :
    (runTicks (fun _ => 0) [(fun _ => true, 5)] [tC3])[0]?.map Task.notified
      = some false := by
  have h := scheduler_never_notifies (fun _ => 0) [(fun _ => true, 5)] [tC3] 0 tC3
    rfl (Or.inl rfl)
  simpa using h

/-- Claim C5: when every dispatch attempted during a tick succeeds,
running the tick again at the same now value is a no-op: it returns the
identical snapshot and a false changed flag, so no store write occurs,
whatever the second dispatch oracle would report. -/
theorem tick_twice_noop (toTime : String → Int) (dispatch : Task → Bool) (now : Int)
    (prev : List Task)
    (h : ∀ t ∈ prev, eligible toTime now t = true → dispatch t = true) :
    ∀ dispatch2 : Task → Bool,
      tick toTime dispatch2 now ((tick toTime dispatch now prev).1)
        = ((tick toTime dispatch now prev).1, false) := fun dispatch2 =>
  tick_of_all_ineligible toTime dispatch2 now _
    (eligible_false_after_tick toTime dispatch now prev h)

def tC5 : Task := ⟨"w5", "due task", none, some "2025-01-01T00:00", false, false, "c"⟩

/-- Witness for claim C5: after a first tick in which the single due
task is dispatched successfully, a second tick at the same time returns
the same snapshot with no write, even with a failing oracle. -/
theorem tick_twice_noop_witness :
    tick (fun _ => 0) (fun _ => false) 5 ((tick (fun _ => 0) (fun _ => true) 5 [tC5]).1)
      = ((tick (fun _ => 0) (fun _ => true) 5 [tC5]).1, false) :=
  tick_twice_noop (fun _ => 0) (fun _ => true) 5 [tC5] (by decide) (fun _ => false)

/-- Claim C6: an eligible task whose dispatch fails is returned
unchanged by the tick, keeps notified = false, stays unchanged over any
further ticks whose dispatches keep failing for it, and remains eligible
at every time at or after its parsed due. -/
theorem failed_dispatch_keeps_eligible (toTime : String → Int)
    (dispatch : Task → Bool) (now : Int) (s : List Task) (i : Nat) (t : Task)
    (hget : s[i]? = some t)
    (helig : eligible toTime now t = true)
    (hfail : dispatch t = false)
    (steps : List ((Task → Bool) × Int))
    (hsteps : ∀ st ∈ steps, st.1 t = false) :
    ((tick toTime dispatch now s).1)[i]? = some t
      ∧ (runTicks toTime steps ((tick toTime dispatch now s).1))[i]? = some t
      ∧ t.notified = false
      ∧ (∀ m : Int, toTime (t.due.getD "") ≤ m → eligible toTime m t = true) := by
  have h1 : ((tick toTime dispatch now s).1)[i]? = some t := by
    rw [tick_getElem, hget]
    simp [tickTask_of_dispatch_false toTime dispatch now t hfail]
  refine ⟨h1, ?_, ?_, ?_⟩
  · exact runTicks_getElem_fixed toTime steps _ i t
      (fun st hst => tickTask_of_dispatch_false toTime st.1 st.2 t (hsteps st hst)) h1
  · rw [eligible, Bool.and_eq_true, Bool.not_eq_true'] at helig
    have hg := helig.1
    simp only [Bool.or_eq_false_iff] at hg
    exact hg.2
  · intro m hm
    rw [eligible, Bool.and_eq_true, Bool.not_eq_true'] at helig ⊢
    exact ⟨helig.1, by simpa using hm⟩

def tC6 : Task := ⟨"w6", "due task", none, some "2025-01-01T00:00", false, false, "c"⟩

def rtC6 : NotifRuntime := ⟨true, .denied, none⟩

/-- Witness for claim C6: with permission denied, notifyTask fails, and
the eligible task is still present unchanged after the failing tick and
one more failing tick. -/
theorem failed_dispatch_keeps_eligible_witness :
    (runTicks (fun _ => 0) [(notifyTask rtC6 fun _ => true, 35)]
        ((tick (fun _ => 0) (notifyTask rtC6 fun _ => true) 5 [tC6]).1))[0]?
      = some tC6 :=
  (failed_dispatch_keeps_eligible (fun _ => 0) (notifyTask rtC6 fun _ => true) 5
    [tC6] 0 tC6 rfl (by decide) (by decide)
    [(notifyTask rtC6 fun _ => true, 35)] (by decide)).2.1

/-- Claim C10: a scheduler tick preserves the length and order of the
snapshot, and the task at each position keeps its id, title, notes, due,
completed and createdAt; only notified may change, and only from false
to true. -/
theorem tick_frame (toTime : String → Int) (dispatch : Task → Bool) (now : Int)
    (prev : List Task) :
    (tick toTime dispatch now prev).1.length = prev.length ∧
    ∀ i : Nat, ∀ t : Task, prev[i]? = some t →
      ∃ u : Task, (tick toTime dispatch now prev).1[i]? = some u
        ∧ u.id = t.id ∧ u.title = t.title ∧ u.notes = t.notes ∧ u.due = t.due
        ∧ u.completed = t.completed ∧ u.createdAt = t.createdAt
        ∧ (u.notified = t.notified ∨ (t.notified = false ∧ u.notified = true)) := by
  constructor
  · rw [tick_fst]
    exact List.length_map _ _
  · intro i t hget
    refine ⟨(tickTask toTime dispatch now t).1, ?_, ?_⟩
    · rw [tick_getElem, hget]
      rfl
    · rcases tickTask_fst_cases toTime dispatch now t with h | ⟨hn, h⟩ <;> rw [h]
      · exact ⟨rfl, rfl, rfl, rfl, rfl, rfl, Or.inl rfl⟩
      · exact ⟨rfl, rfl, rfl, rfl, rfl, rfl, Or.inr ⟨hn, rfl⟩⟩

def tC10 : Task := ⟨"w10", "due task", some "n", some "2025-01-01T00:00", false, false, "c"⟩

/-- Witness for claim C10 at a concrete snapshot: the dispatched task
keeps every field except notified, which flips from false to true. -/
theorem tick_frame_witness :
    ∃ u : Task, (tick (fun _ => 0) (fun _ => true) 5 [tC10]).1[0]? = some u
      ∧ u.id = tC10.id ∧ u.title = tC10.title ∧ u.notes = tC10.notes
      ∧ u.due = tC10.due ∧ u.completed = tC10.completed
      ∧ u.createdAt = tC10.createdAt
      ∧ (u.notified = tC10.notified
          ∨ (tC10.notified = false ∧ u.notified = true)) :=
  (tick_frame (fun _ => 0) (fun _ => true) 5 [tC10]).2 0 tC10 rfl

/-! ### The store round-trip -/

theorem decodeTask_encodeTask (t : Task) : decodeTask (encodeTask t) = some t := by
  cases t with
  | mk id title notes due completed notified createdAt =>
    cases notes <;> cases due <;> rfl

theorem decodeTaskList_encode (tasks : List Task) :
    decodeTaskList (tasks.map encodeTask) = some tasks := by
  induction tasks with
  | nil => rfl
  | cons t rest ih =>
    simp [decodeTaskList, decodeTask_encodeTask, ih]

theorem spreadCopy_encodeTask (t : Task) : spreadCopy (encodeTask t) = encodeTask t := rfl

/-- Claim C7: loading the store state produced by saving a snapshot
returns exactly the serialized records of that snapshot (the spread
copy of a parsed object is the identity), and reading those records
back at the Task level yields a sequence equal to the saved snapshot;
an absent slot, unparseable text (JSON.parse throws), and parsed
non-array content (parsed.map throws) — the paths on which the load
deserialization fails — all load as the empty list with no failure
surfaced.  Parsed array content is passed through without per-record
validation, so records that are not task-shaped are returned as junk
objects, not emptied; the empty-list degradation covers exactly the
failure paths above. -/
theorem store_roundtrip (tasks : List Task) :
    loadTasks (saveTasks tasks) = tasks.map encodeTask
      ∧ decodeTaskList (loadTasks (saveTasks tasks)) = some tasks
      ∧ loadTasks .absent = []
      ∧ loadTasks .corrupt = []
      ∧ ∀ j : Json, (∀ xs : List Json, j ≠ .arr xs) → loadTasks (.content j) = [] := by
  have h1 : loadTasks (saveTasks tasks) = tasks.map encodeTask := by
    show (tasks.map encodeTask).map spreadCopy = tasks.map encodeTask
    rw [List.map_map]
    exact List.map_congr_left fun t _ => spreadCopy_encodeTask t
  refine ⟨h1, ?_, rfl, rfl, ?_⟩
  · rw [h1]
    exact decodeTaskList_encode tasks
  · intro j hj
    cases j with
    | arr xs => exact absurd rfl (hj xs)
    | null => rfl
    | bool b => rfl
    | num n => rfl
    | str s => rfl
    | obj fs => rfl

def tC7 : Task :=
  ⟨"w7", "buy milk", some "2l", some "2025-01-01T09:00", false, true, "2024-12-31"⟩

/-- Witness for claim C7: a concrete one-task snapshot survives the
save and load round-trip at the Task level, and a numeric payload (on
which parsed.map would throw) loads as the empty list. -/
theorem store_roundtrip_witness :
    decodeTaskList (loadTasks (saveTasks [tC7])) = some [tC7]
      ∧ loadTasks (.content (Json.num 3)) = [] :=
  ⟨(store_roundtrip [tC7]).2.1,
   (store_roundtrip []).2.2.2.2 (Json.num 3) (fun _ h => nomatch h)⟩

/-! ### The view projection: order lemmas for the due comparator -/

theorem dueLeb_trans (toTime : String → Int) :
    ∀ a b c : Task, dueLeb toTime a b = true → dueLeb toTime b c = true →
      dueLeb toTime a c = true := by
  intro a b c hab hbc
  unfold dueLeb at *
  by_cases ha : strFalsy a.due = true <;> by_cases hb : strFalsy b.due = true <;>
    by_cases hc : strFalsy c.due = true <;>
    simp [ha, hb, hc] at * <;> omega

theorem dueLeb_total (toTime : String → Int) :
    ∀ a b : Task, (dueLeb toTime a b || dueLeb toTime b a) = true := by
  intro a b
  unfold dueLeb
  by_cases ha : strFalsy a.due = true <;> by_cases hb : strFalsy b.due = true <;>
    simp [ha, hb] <;> omega

theorem dueLeb_of_key_eq (toTime : String → Int) (a b : Task)
    (h : keyOf toTime a = keyOf toTime b) : dueLeb toTime a b = true := by
  unfold keyOf at h
  unfold dueLeb
  by_cases ha : strFalsy a.due = true <;> by_cases hb : strFalsy b.due = true <;>
    simp [ha, hb] at h ⊢ <;> omega

theorem dueLeb_imp_keyLe (toTime : String → Int) (a b : Task)
    (h : dueLeb toTime a b = true) : keyLe (keyOf toTime a) (keyOf toTime b) := by
  unfold dueLeb at h
  unfold keyOf
  by_cases ha : strFalsy a.due = true <;> by_cases hb : strFalsy b.due = true <;>
    simp [ha, hb, keyLe] at h ⊢ <;> try exact h

theorem mergeSort_dueLeb_sorted (toTime : String → Int) (l : List Task) :
    (l.mergeSort (dueLeb toTime)).Pairwise
      (fun a b => keyLe (keyOf toTime a) (keyOf toTime b)) :=
  (List.sorted_mergeSort (dueLeb_trans toTime) (dueLeb_total toTime) l).imp
    (fun h => dueLeb_imp_keyLe _ _ _ h)

theorem mergeSort_dueLeb_filter_key (toTime : String → Int) (l : List Task)
    (k : Option Int) :
    (l.mergeSort (dueLeb toTime)).filter (fun t => keyOf toTime t == k)
      = l.filter (fun t => keyOf toTime t == k) := by
  have hall : ∀ t ∈ l.filter (fun t => keyOf toTime t == k),
      (keyOf toTime t == k) = true := fun t ht => (List.mem_filter.mp ht).2
  have hpair : (l.filter (fun t => keyOf toTime t == k)).Pairwise
      (fun a b => dueLeb toTime a b = true) := by
    refine List.pairwise_of_forall_mem_list ?_
    intro a ha b hb
    have hka : keyOf toTime a = k := by simpa [beq_iff_eq] using hall a ha
    have hkb : keyOf toTime b = k := by simpa [beq_iff_eq] using hall b hb
    exact dueLeb_of_key_eq toTime a b (hka.trans hkb.symm)
  have hsub : (l.filter (fun t => keyOf toTime t == k)).Sublist
      (l.mergeSort (dueLeb toTime)) :=
    List.sublist_mergeSort (dueLeb_trans toTime) (dueLeb_total toTime) hpair
      (List.filter_sublist l)
  have hsub2 : (l.filter (fun t => keyOf toTime t == k)).Sublist
      ((l.mergeSort (dueLeb toTime)).filter (fun t => keyOf toTime t == k)) := by
    have h3 := List.Sublist.filter (fun t => keyOf toTime t == k) hsub
    rwa [List.filter_eq_self.mpr hall] at h3
  have hperm : ((l.mergeSort (dueLeb toTime)).filter (fun t => keyOf toTime t == k)).Perm
      (l.filter (fun t => keyOf toTime t == k)) :=
    (List.mergeSort_perm l (dueLeb toTime)).filter _
  exact (hsub2.eq_of_length hperm.length_eq.symm).symm

theorem visiblePre_sublist (calOfStr : String → CalDate)
    (calOfTime : Int → CalDate) (now : Int) (tasks : List Task) (tab : Tab)
    (fl : Filter) (query : String) :
    (visiblePre calOfStr calOfTime now tasks tab fl query).Sublist tasks := by
  cases tab <;> cases fl <;> simp only [visiblePre] <;> split <;>
    first
    | exact List.Sublist.refl _
    | exact List.filter_sublist _
    | exact (List.filter_sublist _).trans (List.filter_sublist _)
    | exact ((List.filter_sublist _).trans (List.filter_sublist _)).trans
        (List.filter_sublist _)

/-- Claim C8: for every input, the projected list is sorted ascending by
parsed due timestamp with every task lacking a (truthy) due placed after
every task having one (the keyLe order on sort keys), the sort is
stable — among tasks with equal sort keys the output preserves the order
of the pre-sort filtered list, which is itself an order-preserving
sublist of the input — and the filtered list is a sublist of the
input. -/
theorem visible_sorted_and_stable (toTime : String → Int)
    (calOfStr : String → CalDate) (calOfTime : Int → CalDate) (now : Int)
    (tasks : List Task) (tab : Tab) (fl : Filter) (query : String) :
    (visible toTime calOfStr calOfTime now tasks tab fl query).Pairwise
        (fun a b => keyLe (keyOf toTime a) (keyOf toTime b))
      ∧ (∀ k : Option Int,
          (visible toTime calOfStr calOfTime now tasks tab fl query).filter
              (fun t => keyOf toTime t == k)
            = (visiblePre calOfStr calOfTime now tasks tab fl query).filter
              (fun t => keyOf toTime t == k))
      ∧ (visiblePre calOfStr calOfTime now tasks tab fl query).Sublist tasks :=
  ⟨mergeSort_dueLeb_sorted toTime _,
   fun k => mergeSort_dueLeb_filter_key toTime _ k,
   visiblePre_sublist calOfStr calOfTime now tasks tab fl query⟩

/-! ### Purity of the view projection relative to the clock -/

theorem isToday_congr (calOfTime : Int → CalDate) (now1 now2 : Int)
    (h : calOfTime now1 = calOfTime now2) (d : Option CalDate) :
    isToday calOfTime now1 d = isToday calOfTime now2 d := by
  cases d <;> simp [isToday, h]

def tC9 : Task := ⟨"w9", "meeting", none, some "2025-01-01T09:00", false, false, "c"⟩

def csC9 : String → CalDate := fun _ => ⟨2025, 1, 1⟩

def ctC9 : Int → CalDate := fun n => ⟨n, 1, 1⟩

/-- Claim C9 (counterexample): the projection is not a function of
(tasks, tab, filter, query) alone — with the today tab, two calls with
identical arguments but clock instants on different calendar dates
return different lists, because isToday reads the current clock. -/
theorem visible_clock_dependence_cex :
    visible (fun _ => 0) csC9 ctC9 2025 [tC9] Tab.today Filter.all ""
      ≠ visible (fun _ => 0) csC9 ctC9 2024 [tC9] Tab.today Filter.all "" := by
  have h1 : visible (fun _ => 0) csC9 ctC9 2025 [tC9] Tab.today Filter.all ""
      = [tC9] := by
    simp [visible, visiblePre, isToday, strFalsy, csC9, ctC9, tC9, trim,
      List.mergeSort_singleton]
  have h2 : visible (fun _ => 0) csC9 ctC9 2024 [tC9] Tab.today Filter.all ""
      = [] := by
    simp [visible, visiblePre, isToday, strFalsy, csC9, ctC9, tC9, trim,
      List.mergeSort_nil]
  rw [h1, h2]
  simp

/-- Claim C9 (amended): the projection is a pure function of (tasks,
tab, filter, query) and the current calendar date: the clock influences
the result only through its calendar decomposition, so two calls with
identical arguments whose clock instants fall on the same calendar date
yield equal output lists. -/
theorem visible_pure_given_calendar_date (toTime : String → Int)
    (calOfStr : String → CalDate) (calOfTime : Int → CalDate)
    (now1 now2 : Int) (tasks : List Task) (tab : Tab) (fl : Filter)
    (query : String) (h : calOfTime now1 = calOfTime now2) :
    visible toTime calOfStr calOfTime now1 tasks tab fl query
      = visible toTime calOfStr calOfTime now2 tasks tab fl query := by
  simp only [visible, visiblePre, isToday_congr calOfTime now1 now2 h]

def ctC9w : Int → CalDate := fun _ => ⟨2025, 1, 1⟩

/-- Witness for the amended claim C9: two calls at distinct clock
instants with the same calendar date produce the same list. -/
theorem visible_pure_given_calendar_date_witness :
    visible (fun _ => 0) csC9 ctC9w 0 [tC9] Tab.today Filter.all ""
      = visible (fun _ => 0) csC9 ctC9w 999 [tC9] Tab.today Filter.all "" :=
  visible_pure_given_calendar_date (fun _ => 0) csC9 ctC9w 0 999 [tC9]
    Tab.today Filter.all "" rfl

end TodoApp
